import Mathlib

/-!
Verification development for the genki-signals streaming buffer and
derived-signal pipeline engine.

The definitions below are a shallow embedding of the Python code in
genki_signals/buffers.py, genki_signals/signal_functions/windowed.py,
genki_signals/signal_functions/serialization.py and
genki_signals/signal_system.py.  A numpy array whose last axis is the time
axis is modelled as a shape (the non-time axes) together with the list of
its time slices, each flattened in C order; Python exceptions are modelled
with an explicit error type, and the while loop of the windowed transform
is modelled with an explicit fuel argument so that non-termination is
expressible.
-/

namespace GenkiSignals

/-- Python exceptions that the embedded code can raise. -/
inductive PyErr where
  | valueError
  | indexError
  | keyError
  | attributeError
  | assertionError
  | typeError
  deriving DecidableEq, Repr

/-- Python list slicing l[:n] for an arbitrary integer n
(negative stops count from the end, out-of-range stops clip). -/
def pySliceTo {α : Type} (l : List α) (n : Int) : List α :=
  if 0 ≤ n then l.take n.toNat else l.take (l.length - (-n).toNat)

/-- Python list slicing l[s:] for an arbitrary integer s
(negative starts count from the end, out-of-range starts clip). -/
def pySliceFrom {α : Type} (l : List α) (s : Int) : List α :=
  if 0 ≤ s then l.drop s.toNat else l.drop (l.length - (-s).toNat)

/-- Model of a numpy ndarray as the buffers use it: the LAST axis is the
time axis.  shape lists the non-time axes (so shape of the real array is
(*shape, frames.length)); frames lists the time slices v[..., j], each
flattened in C order (length shape.prod). -/
structure NpArr (α : Type) where
  shape : List Nat
  frames : List (List α)
  deriving DecidableEq, Repr

/-- Number of elements of the array (numpy .size). -/
def npSize {α : Type} (a : NpArr α) : Nat :=
  a.shape.prod * a.frames.length

/-- Python len() of a numpy array is the first element of its full shape
(*shape, frames.length): the time-axis length only for 1-D arrays. -/
def pyLen {α : Type} (a : NpArr α) : Nat :=
  match a.shape with
  | [] => a.frames.length
  | d :: _ => d

/-- buffers._slice on one array: data[..., -n:] when endSide is true,
else data[..., :n]. -/
def npSlice {α : Type} (a : NpArr α) (n : Int) (endSide : Bool) : NpArr α :=
  if endSide then ⟨a.shape, pySliceFrom a.frames (-n)⟩
  else ⟨a.shape, pySliceTo a.frames n⟩

/-- numpy row selection v[i] along the first (non-time) axis.  For a 1-D
array numpy returns a scalar, which we model as a 0-d value. -/
def npGetRow {α : Type} (a : NpArr α) (i : Nat) : Except PyErr (NpArr α) :=
  match a.shape with
  | d :: rest =>
      if i < d then
        .ok ⟨rest, a.frames.map (fun f => (f.drop (i * rest.prod)).take rest.prod)⟩
      else .error .indexError
  | [] =>
      if i < a.frames.length then .ok ⟨[], [a.frames.getD i []]⟩
      else .error .indexError

/-- np.repeat(signal, factor, axis=-1): each time slice is repeated factor
times; a negative factor raises ValueError. -/
def npRepeat {α : Type} (a : NpArr α) (factor : Int) : Except PyErr (NpArr α) :=
  if factor < 0 then .error .valueError
  else .ok ⟨a.shape, a.frames.flatMap (fun f => List.replicate factor.toNat f)⟩

/-! ### NumpyBuffer (buffers.py, classes Buffer and NumpyBuffer) -/

/-- NumpyBuffer._empty: np.empty((0, 0)) when cols is unset, else
np.empty((*cols, 0)). -/
def nbEmptyArr {α : Type} (cols : Option (List Nat)) : NpArr α :=
  match cols with
  | none => ⟨[0], []⟩
  | some c => ⟨c, []⟩

/-- State of a NumpyBuffer: optional bound maxlen, optionally-set column
shape, and the stored array. -/
structure NumpyBuffer (α : Type) where
  maxlen : Option Int
  cols : Option (List Nat)
  data : NpArr α
  deriving DecidableEq, Repr

/-- NumpyBuffer(maxlen, n_cols): Buffer.__init__ raises ValueError when
maxlen is not None and maxlen < 1. -/
def NumpyBuffer.new {α : Type} (maxlen : Option Int) (nCols : Option (List Nat)) :
    Except PyErr (NumpyBuffer α) :=
  match maxlen with
  | some m => if m < 1 then .error .valueError else .ok ⟨some m, nCols, nbEmptyArr nCols⟩
  | none => .ok ⟨none, nCols, nbEmptyArr nCols⟩

/-- NumpyBuffer.__len__: self._data.shape[-1]. -/
def NumpyBuffer.len {α : Type} (nb : NumpyBuffer α) : Nat :=
  nb.data.frames.length

/-- NumpyBuffer._init_cols_if_needed: nothing for empty data; otherwise set
cols from the data shape when still unset. -/
def NumpyBuffer.initColsIfNeeded {α : Type} (nb : NumpyBuffer α) (d : NpArr α) :
    NumpyBuffer α :=
  if d.frames.length = 0 then nb
  else
    match nb.cols with
    | none => { nb with cols := some d.shape }
    | some _ => nb

/-- NumpyBuffer._validate: empty data passes; otherwise assert that the
non-time shape equals cols. -/
def NumpyBuffer.validate {α : Type} (nb : NumpyBuffer α) (d : NpArr α) :
    Except PyErr Unit :=
  if d.frames.length = 0 then .ok ()
  else if some d.shape = nb.cols then .ok () else .error .assertionError

/-- NumpyBuffer._concat: drop size-0 arrays; if all are empty return the
empty array, else np.concatenate along the last axis (which requires all
remaining shapes to agree). -/
def nbConcat {α : Type} (cols : Option (List Nat)) (ds : List (NpArr α)) :
    Except PyErr (NpArr α) :=
  match ds.filter (fun d => npSize d ≠ 0) with
  | [] => .ok (nbEmptyArr cols)
  | d :: rest =>
      if rest.all (fun e => e.shape = d.shape) then
        .ok ⟨d.shape, (d :: rest).flatMap NpArr.frames⟩
      else .error .valueError

/-- Buffer.extend for a NumpyBuffer: init cols, validate, concatenate, and
slice to the last maxlen time steps when maxlen is set. -/
def NumpyBuffer.extend {α : Type} (nb : NumpyBuffer α) (d : NpArr α) :
    Except PyErr (NumpyBuffer α) :=
  let nb1 := nb.initColsIfNeeded d
  match nb1.validate d with
  | .error e => .error e
  | .ok _ =>
      match nbConcat nb1.cols [nb1.data, d] with
      | .error e => .error e
      | .ok c =>
          match nb1.maxlen with
          | none => .ok { nb1 with data := c }
          | some m => .ok { nb1 with data := npSlice c m true }

/-- Buffer.view(n) for a NumpyBuffer: self._slice(self._data, n), i.e. the
first n time steps. -/
def NumpyBuffer.view {α : Type} (nb : NumpyBuffer α) (n : Int) : NpArr α :=
  npSlice nb.data n false

/-- Buffer.popleft(n) for a NumpyBuffer: n = 0 returns the empty element;
an empty buffer raises IndexError; otherwise the first n time steps are
returned and the rest kept (the buffer becomes empty when n covers it). -/
def NumpyBuffer.popleft {α : Type} (nb : NumpyBuffer α) (n : Int) :
    Except PyErr (NpArr α × NumpyBuffer α) :=
  if n = 0 then .ok (nbEmptyArr nb.cols, nb)
  else if nb.len = 0 then .error .indexError
  else
    let dataOut := npSlice nb.data n false
    let nToKeep : Int := (nb.data.frames.length : Int) - n
    let newData := if 0 < nToKeep then npSlice nb.data nToKeep true else nbEmptyArr nb.cols
    .ok (dataOut, { nb with data := newData })

/-- Buffer.popleft_all: popleft(len(self)). -/
def NumpyBuffer.popleftAll {α : Type} (nb : NumpyBuffer α) :
    Except PyErr (NpArr α × NumpyBuffer α) :=
  nb.popleft (nb.len : Int)

/-! ### DataBuffer (buffers.py, class DataBuffer), the TimeSeriesBuffer -/

/-- A batch of named arrays, iterated in insertion order, as handed to
DataBuffer.extend (a Python dict of numpy arrays). -/
abbrev Batch (α : Type) : Type := List (String × NpArr α)

/-- Python dict assignment d[k] = v on an insertion-ordered association
list: an existing key keeps its position, a new key is appended. -/
def dictSet {α : Type} : List (String × α) → String → α → List (String × α)
  | [], k, v => [(k, v)]
  | (k0, v0) :: rest, k, v =>
      if k0 = k then (k0, v) :: rest else (k0, v0) :: dictSet rest k v

/-- Python dict lookup d[k] on an insertion-ordered association list. -/
def dictGet {α : Type} : List (String × α) → String → Option α
  | [], _ => none
  | (k0, v0) :: rest, k => if k0 = k then some v0 else dictGet rest k

/-- State of a DataBuffer: the optional bound and the insertion-ordered
dict of channel name to array (the plotting machinery is omitted). -/
structure DataBuffer (α : Type) where
  maxlen : Option Int
  data : List (String × NpArr α)
  deriving DecidableEq, Repr

/-- DataBuffer(maxlen) created empty: Buffer.__init__ raises ValueError
when maxlen is not None and maxlen < 1. -/
def DataBuffer.new {α : Type} (maxlen : Option Int) : Except PyErr (DataBuffer α) :=
  match maxlen with
  | some m => if m < 1 then .error .valueError else .ok ⟨some m, []⟩
  | none => .ok ⟨none, []⟩

/-- DataBuffer.__len__: 0 for an empty dict, else the maximum time-axis
length over the channels. -/
def DataBuffer.len {α : Type} (db : DataBuffer α) : Nat :=
  if db.data.isEmpty then 0
  else (db.data.map (fun kv => kv.2.frames.length)).foldl Nat.max 0

/-- DataBuffer._init_cols_if_needed: when the buffer is empty, replace the
dict with empty arrays shaped like the incoming data. -/
def DataBuffer.initColsIfNeeded {α : Type} (db : DataBuffer α) (new : Batch α) :
    DataBuffer α :=
  if db.len = 0 then
    { db with data := new.foldl (fun acc kv => dictSet acc kv.1 ⟨kv.2.shape, []⟩) [] }
  else db

/-- The loop body of DataBuffer._concat: result[k] = np.concatenate(
[result[k], v], axis=-1) for an existing key (ValueError when the non-time
shapes differ), result[k] = v for a new key.  The dict named result IS
self._data, mutated in place, so on error the keys already processed stay
modified: the partial state is returned with the error. -/
def dbConcatGo {α : Type} :
    List (String × NpArr α) → Batch α → List (String × NpArr α) × Option PyErr
  | cur, [] => (cur, none)
  | cur, (k, v) :: rest =>
      match dictGet cur k with
      | some old =>
          if old.shape = v.shape then
            dbConcatGo (dictSet cur k ⟨old.shape, old.frames ++ v.frames⟩) rest
          else (cur, some .valueError)
      | none => dbConcatGo (dictSet cur k v) rest

/-- Buffer.extend for a DataBuffer.  Returns the buffer state after the
call together with the raised exception, if any: _concat mutates the dict
in place, so a ValueError leaves the already-concatenated channels
extended.  On success, with maxlen set, every channel is sliced to its
last maxlen time steps. -/
def DataBuffer.extend {α : Type} (db : DataBuffer α) (new : Batch α) :
    DataBuffer α × Option PyErr :=
  let db1 := db.initColsIfNeeded new
  match dbConcatGo db1.data new with
  | (d2, some e) => ({ db1 with data := d2 }, some e)
  | (d2, none) =>
      match db1.maxlen with
      | none => ({ db1 with data := d2 }, none)
      | some m => ({ db1 with data := d2.map (fun kv => (kv.1, npSlice kv.2 m true)) }, none)

/-- Buffer.popleft(n) on a DataBuffer: n = 0 returns the empty dict, an
empty buffer raises IndexError, and otherwise the access
self._data.shape[-1] raises AttributeError, because self._data is a dict
and has no attribute shape (data_out is computed and then discarded). -/
def DataBuffer.popleft {α : Type} (db : DataBuffer α) (n : Int) :
    Except PyErr (List (String × NpArr α) × DataBuffer α) :=
  if n = 0 then .ok ([], db)
  else if db.len = 0 then .error .indexError
  else .error .attributeError

/-- The greedy split performed by re.match((.+)_(\d+), k): the longest
prefix followed by an underscore and at least one digit; the digit run
after that underscore is the index (re.match ignores trailing text). -/
def subKeySplit (k : String) : Option (String × Nat) :=
  let cs := k.toList
  let idxs := (List.range cs.length).filter
    (fun i => decide (1 ≤ i) && (cs.get? i == some '_')
      && (match cs.get? (i + 1) with | some c => c.isDigit | none => false))
  match idxs.getLast? with
  | none => none
  | some i =>
      let digits := (cs.drop (i + 1)).takeWhile Char.isDigit
      some (String.mk (cs.take i), digits.foldl (fun acc c => acc * 10 + (c.toNat - 48)) 0)

/-- DataBuffer.__getitem__: direct lookup, falling back to the sub-channel
convention name_k, which selects row k along the first non-time axis of
channel name; otherwise KeyError. -/
def DataBuffer.getItem {α : Type} (db : DataBuffer α) (k : String) :
    Except PyErr (NpArr α) :=
  match dictGet db.data k with
  | some v => .ok v
  | none =>
      match subKeySplit k with
      | some (key, idx) =>
          match dictGet db.data key with
          | some v => npGetRow v idx
          | none => .error .keyError
      | none => .error .keyError

/-- DataBuffer.__setitem__: plain dict assignment, no bound enforcement. -/
def DataBuffer.setItem {α : Type} (db : DataBuffer α) (k : String) (v : NpArr α) :
    DataBuffer α :=
  { db with data := dictSet db.data k v }

/-- Repeated DataBuffer.extend over a list of batches, stopping at the
first raised exception (as the acquisition loop would). -/
def extendSeq {α : Type} (db : DataBuffer α) : List (Batch α) → DataBuffer α × Option PyErr
  | [] => (db, none)
  | b :: bs =>
      match db.extend b with
      | (db2, none) => extendSeq db2 bs
      | (db2, some e) => (db2, some e)

/-- The frames appended to channel k by one batch, in order. -/
def batchFrames {α : Type} (k : String) (b : Batch α) : List (List α) :=
  (b.filter (fun kv => kv.1 = k)).flatMap (fun kv => kv.2.frames)

/-- The full append history of channel k over a list of batches. -/
def histFrames {α : Type} (k : String) (bs : List (Batch α)) : List (List α) :=
  bs.flatMap (batchFrames k)

/-- The last n elements of a list (all of it when n exceeds the length). -/
def takeLastN {γ : Type} (n : Nat) (l : List γ) : List γ :=
  l.drop (l.length - n)

/-! ### WindowedSignalFunction (signal_functions/windowed.py) -/

/-- Instance state set up by WindowedSignalFunction.init_windowing:
window parameters, the unbounded input and output NumpyBuffers, the
default value and the upsample flag.  The per-window computation
windowed_fn is kept outside the state, as a function argument. -/
structure WState (α β : Type) where
  winSize : Int
  windowOverlap : Int
  numToPop : Int
  inputBuffer : NumpyBuffer α
  outputBuffer : NumpyBuffer β
  defaultValue : β
  upsample : Bool
  deriving DecidableEq, Repr

/-- The fresh input buffer NumpyBuffer(None) of init_windowing. -/
def ibInit {α : Type} : NumpyBuffer α := ⟨none, none, nbEmptyArr none⟩

/-- The fresh output buffer NumpyBuffer(None, n_cols=output_shape). -/
def obInit {β : Type} (outputShape : List Nat) : NumpyBuffer β :=
  ⟨none, some outputShape, nbEmptyArr (some outputShape)⟩

/-- WindowedSignalFunction.init_windowing.  No parameter validation is
performed.  With upsample set, default_value * np.ones((*output_shape,
window_size - 1)) is pushed into the output buffer (np.ones raises
ValueError on a negative dimension); every element of that array is the
default value. -/
def initWindowing {α β : Type} (windowSize : Int) (outputShape : List Nat)
    (windowOverlap : Int) (defaultValue : β) (upsample : Bool) :
    Except PyErr (WState α β) :=
  if upsample then
    if windowSize - 1 < 0 then .error .valueError
    else
      let defaults : NpArr β :=
        ⟨outputShape, List.replicate (windowSize - 1).toNat
          (List.replicate outputShape.prod defaultValue)⟩
      match (obInit outputShape).extend defaults with
      | .error e => .error e
      | .ok ob2 =>
          .ok ⟨windowSize, windowOverlap, windowSize - windowOverlap,
            ibInit, ob2, defaultValue, upsample⟩
  else
    .ok ⟨windowSize, windowOverlap, windowSize - windowOverlap,
      ibInit, obInit outputShape, defaultValue, upsample⟩

/-- The while loop of WindowedSignalFunction.__call__, with explicit fuel
(none means the fuel ran out, i.e. the loop did not terminate within it).
cur tracks the Python variable named inputs, which the loop REBINDS to the
current window view; the value returned is the pair of the state and of
that variable when the loop exits. -/
def wLoop {α β : Type} (wf : NpArr α → NpArr β) :
    Nat → WState α β → NpArr α → Option (Except PyErr (WState α β × NpArr α))
  | 0, st, cur =>
      if st.winSize ≤ (st.inputBuffer.len : Int) then none
      else some (.ok (st, cur))
  | fuel + 1, st, cur =>
      if st.winSize ≤ (st.inputBuffer.len : Int) then
        let cur2 := st.inputBuffer.view st.winSize
        match st.inputBuffer.popleft st.numToPop with
        | .error e => some (.error e)
        | .ok (_, ib2) =>
            let out := wf cur2
            match (if st.upsample then npRepeat out st.numToPop else .ok out) with
            | .error e => some (.error e)
            | .ok ups =>
                match st.outputBuffer.extend ups with
                | .error e => some (.error e)
                | .ok ob2 =>
                    wLoop wf fuel { st with inputBuffer := ib2, outputBuffer := ob2 } cur2
      else some (.ok (st, cur))

/-- WindowedSignalFunction.__call__: extend the input buffer, drain full
windows, then pop len(inputs) time steps (upsample) or the whole output
buffer.  Because the loop rebinds inputs, len(inputs) after at least one
iteration is the Python len() of the LAST WINDOW VIEW, not of the new
samples. -/
def wCall {α β : Type} (wf : NpArr α → NpArr β) (fuel : Nat) (st : WState α β)
    (inputs : NpArr α) : Option (Except PyErr (NpArr β × WState α β)) :=
  match st.inputBuffer.extend inputs with
  | .error e => some (.error e)
  | .ok ib1 =>
      match wLoop wf fuel { st with inputBuffer := ib1 } inputs with
      | none => none
      | some (.error e) => some (.error e)
      | some (.ok (st2, cur)) =>
          if st2.upsample then
            match st2.outputBuffer.popleft (pyLen cur : Int) with
            | .error e => some (.error e)
            | .ok (out, ob2) => some (.ok (out, { st2 with outputBuffer := ob2 }))
          else
            match st2.outputBuffer.popleftAll with
            | .error e => some (.error e)
            | .ok (out, ob2) => some (.ok (out, { st2 with outputBuffer := ob2 }))

/-- A concrete per-window computation used in the counterexamples: the
window sum, one output time step of scalar shape per window. -/
def sumWindow (a : NpArr Int) : NpArr Int :=
  ⟨[], [[(a.frames.map List.sum).sum]]⟩

/-! ### SignalFunction serialization
(signal_functions/serialization.py together with the constructors of the
registered classes).  The registry is modelled as a closed universe of
representative registered classes; each constructor stores the fields of
its Python __init__ and the params dict exactly as the source builds it. -/

/-- A JSON-representable parameter value. -/
inductive PVal where
  | int (i : Int)
  | str (s : String)
  | bool (b : Bool)
  | pynone
  deriving DecidableEq, Repr

/-- Constructor data of registered SignalFunction classes.  Scale, Sum,
Difference and Stack store params whose keys match their keyword
parameters; Differentiate accepts input_b=None (then input_signals has one
element); Inference stores its model_filename under the params key
"model". -/
inductive SigFnData where
  | scale (inputSignal name : String) (scaleFactor : PVal)
  | sum (inputs : List String) (name : String)
  | difference (inputA inputB name : String)
  | stack (inputs : List String) (name : String) (axis : PVal)
  | differentiate (inputA : String) (inputB : Option String) (name : String)
  | inference (inputSignal name : String) (modelFilename statefulFlag initState : PVal)
  deriving DecidableEq, Repr

/-- The serialized document of encode_signal_fn: type tag, input names,
output name, params (the marker key __signal_function__ is implicit). -/
structure SigFnDoc where
  typeTag : String
  inputs : List String
  name : String
  params : List (String × PVal)
  deriving DecidableEq, Repr

/-- encode_signal_fn: reads obj.input_signals, obj.name and obj.params as
each class's __init__ stored them. -/
def encodeSignalFn : SigFnData → SigFnDoc
  | .scale i n sf => ⟨"Scale", [i], n, [("scale_factor", sf)]⟩
  | .sum is n => ⟨"Sum", is, n, []⟩
  | .difference a b n => ⟨"Difference", [a, b], n, []⟩
  | .stack is n ax => ⟨"Stack", is, n, [("axis", ax)]⟩
  | .differentiate a b n =>
      ⟨"Differentiate", (match b with | some bb => [a, bb] | none => [a]), n, []⟩
  | .inference i n mf st is =>
      ⟨"Inference", [i], n, [("model", mf), ("stateful", st), ("init_state", is)]⟩

/-- decode_signal_fn: look the type tag up and call
cls(*inputs, name=name, **params).  Python raises TypeError when a
positional parameter is missing or a keyword is unexpected, which is what
the non-matching cases model; an unknown tag fails the getattr lookup. -/
def decodeSignalFn (doc : SigFnDoc) : Except PyErr SigFnData :=
  match doc.typeTag with
  | "Scale" =>
      match doc.inputs, doc.params with
      | [i], [("scale_factor", sf)] => .ok (.scale i doc.name sf)
      | _, _ => .error .typeError
  | "Sum" =>
      match doc.params with
      | [] => .ok (.sum doc.inputs doc.name)
      | _ => .error .typeError
  | "Difference" =>
      match doc.inputs, doc.params with
      | [a, b], [] => .ok (.difference a b doc.name)
      | _, _ => .error .typeError
  | "Stack" =>
      match doc.params with
      | [("axis", ax)] => .ok (.stack doc.inputs doc.name ax)
      | _ => .error .typeError
  | "Differentiate" =>
      match doc.inputs, doc.params with
      | [a, b], [] => .ok (.differentiate a (some b) doc.name)
      | _, _ => .error .typeError
  | "Inference" =>
      match doc.inputs, doc.params with
      | [i], [("model_filename", mf), ("stateful", st), ("init_state", is)] =>
          .ok (.inference i doc.name mf st is)
      | _, _ => .error .typeError
  | _ => .error .attributeError

/-- The registered functions whose recorded document binds back onto the
constructor: params keys named like the keyword parameters and a full
positional input list.  Inference (params key model vs parameter
model_filename) and Differentiate built with input_b=None are not. -/
def reconstructible : SigFnData → Bool
  | .inference _ _ _ _ _ => false
  | .differentiate _ none _ => false
  | _ => true

/-! ### Pipeline execution (signal_system.py, SignalSystem._compute_derived
and SignalSystem._read).  A signal function instance is its output name,
input names and a stateful step function; execution is modelled as an
inductive relation mirroring the source loops, so that the two-run
determinism hyperproperty quantifies over runs. -/

/-- A (possibly stateful) SignalFunction instance as the pipeline sees it:
self.name, self.input_signals, and __call__ threaded through an explicit
state of type σ, returning the output or the raised exception. -/
structure SigFn (σ α : Type) where
  name : String
  inputSignals : List String
  call : σ → List (NpArr α) → Except PyErr (NpArr α) × σ

/-- The tuple(data[name] for name in signal.input_signals) gather: the
first missing channel raises. -/
def gatherInputs {α : Type} (db : DataBuffer α) : List String → Except PyErr (List (NpArr α))
  | [] => .ok []
  | n :: rest =>
      match db.getItem n with
      | .error e => .error e
      | .ok v =>
          match gatherInputs db rest with
          | .error e => .error e
          | .ok vs => .ok (v :: vs)

/-- SignalSystem._compute_derived as a big-step relation: functions run in
declaration order; each gathers its inputs, is called on its state, and
writes its output under its name; any exception is re-raised and aborts
the batch.  The result carries the final buffer and the updated states. -/
inductive ComputeDerived {σ α : Type} :
    List (SigFn σ α × σ) → DataBuffer α → Except PyErr (DataBuffer α × List σ) → Prop
  | nil (db : DataBuffer α) : ComputeDerived [] db (.ok (db, []))
  | gatherErr (f : SigFn σ α) (s : σ) (rest : List (SigFn σ α × σ)) (db : DataBuffer α)
      (e : PyErr) :
      gatherInputs db f.inputSignals = .error e →
      ComputeDerived ((f, s) :: rest) db (.error e)
  | callErr (f : SigFn σ α) (s : σ) (rest : List (SigFn σ α × σ)) (db : DataBuffer α)
      (ins : List (NpArr α)) (e : PyErr) (s2 : σ) :
      gatherInputs db f.inputSignals = .ok ins →
      f.call s ins = (.error e, s2) →
      ComputeDerived ((f, s) :: rest) db (.error e)
  | stepOk (f : SigFn σ α) (s : σ) (rest : List (SigFn σ α × σ)) (db : DataBuffer α)
      (ins : List (NpArr α)) (out : NpArr α) (s2 : σ) (db2 : DataBuffer α) (ss : List σ) :
      gatherInputs db f.inputSignals = .ok ins →
      f.call s ins = (.ok out, s2) →
      ComputeDerived rest (db.setItem f.name out) (.ok (db2, ss)) →
      ComputeDerived ((f, s) :: rest) db (.ok (db2, s2 :: ss))
  | stepErr (f : SigFn σ α) (s : σ) (rest : List (SigFn σ α × σ)) (db : DataBuffer α)
      (ins : List (NpArr α)) (out : NpArr α) (s2 : σ) (e : PyErr) :
      gatherInputs db f.inputSignals = .ok ins →
      f.call s ins = (.ok out, s2) →
      ComputeDerived rest (db.setItem f.name out) (.error e) →
      ComputeDerived ((f, s) :: rest) db (.error e)

/-- A run of SignalSystem._read over a recorded sequence of drained
batches: each batch is a fresh buffer; only non-empty batches go through
the pipeline; function states persist across batches; the first exception
aborts the run.  The result lists the buffers handed to the consumers. -/
inductive RunReads {σ α : Type} :
    List (SigFn σ α) → List σ → List (DataBuffer α) →
    Except PyErr (List (DataBuffer α)) → Prop
  | nil (fns : List (SigFn σ α)) (ss : List σ) : RunReads fns ss [] (.ok [])
  | emptyOk (fns : List (SigFn σ α)) (ss : List σ) (b : DataBuffer α)
      (bs : List (DataBuffer α)) (outs : List (DataBuffer α)) :
      b.len = 0 → RunReads fns ss bs (.ok outs) →
      RunReads fns ss (b :: bs) (.ok (b :: outs))
  | emptyErr (fns : List (SigFn σ α)) (ss : List σ) (b : DataBuffer α)
      (bs : List (DataBuffer α)) (e : PyErr) :
      b.len = 0 → RunReads fns ss bs (.error e) →
      RunReads fns ss (b :: bs) (.error e)
  | computeErr (fns : List (SigFn σ α)) (ss : List σ) (b : DataBuffer α)
      (bs : List (DataBuffer α)) (e : PyErr) :
      b.len ≠ 0 → ComputeDerived (fns.zip ss) b (.error e) →
      RunReads fns ss (b :: bs) (.error e)
  | computeOk (fns : List (SigFn σ α)) (ss : List σ) (b : DataBuffer α)
      (bs : List (DataBuffer α)) (db2 : DataBuffer α) (ss2 : List σ)
      (outs : List (DataBuffer α)) :
      b.len ≠ 0 → ComputeDerived (fns.zip ss) b (.ok (db2, ss2)) →
      RunReads fns ss2 bs (.ok outs) →
      RunReads fns ss (b :: bs) (.ok (db2 :: outs))
  | computeOkErr (fns : List (SigFn σ α)) (ss : List σ) (b : DataBuffer α)
      (bs : List (DataBuffer α)) (db2 : DataBuffer α) (ss2 : List σ) (e : PyErr) :
      b.len ≠ 0 → ComputeDerived (fns.zip ss) b (.ok (db2, ss2)) →
      RunReads fns ss2 bs (.error e) →
      RunReads fns ss (b :: bs) (.error e)

/-! ### Concrete instances used by the witnesses and counterexamples -/

/-- A two-channel buffer, both channels scalar with one sample. -/
def dbC3 : DataBuffer Int := ⟨none, [("a", ⟨[], [[1]]⟩), ("b", ⟨[], [[5]]⟩)]⟩

/-- A batch whose first entry matches channel a and whose second entry has
the wrong non-time shape for channel b. -/
def batchC3 : Batch Int := [("a", ⟨[], [[2]]⟩), ("b", ⟨[2], [[7, 8]]⟩)]

/-- A nonempty one-channel DataBuffer, two scalar samples. -/
def dbC6 : DataBuffer Int := ⟨none, [("a", ⟨[], [[1], [2]]⟩)]⟩

/-- The state built by init_windowing(window_size=2, output_shape=(),
window_overlap=0, default_value=0, upsample=True). -/
def stC1 : WState Int Int := ⟨2, 0, 2, ibInit, ⟨none, some [], ⟨[], [[0]]⟩⟩, 0, true⟩

/-- The state built by init_windowing(window_size=4, output_shape=(),
window_overlap=0, default_value=0, upsample=True). -/
def stC2 : WState Int Int :=
  ⟨4, 0, 4, ibInit, ⟨none, some [], ⟨[], [[0], [0], [0]]⟩⟩, 0, true⟩

/-- The state built by init_windowing(window_size=2, output_shape=(),
window_overlap=2, default_value=0, upsample=False): overlap equals the
window size and construction still succeeds. -/
def stOverlapBad : WState Int Int := ⟨2, 2, 0, ibInit, obInit [], 0, false⟩

/-- A per-window computation emitting one constant time step of the given
output shape, used to exhibit non-termination. -/
def constWinFn (oshape : List Nat) : NpArr Int → NpArr Int :=
  fun _ => ⟨oshape, [List.replicate oshape.prod 0]⟩

/-- A stateless Scale-by-2 signal function instance reading channel x. -/
def scaleByTwo : SigFn Unit Int :=
  ⟨"y", ["x"],
    fun s ins =>
      (match ins with
       | [v] => .ok ⟨v.shape, v.frames.map (fun f => f.map (fun x => 2 * x))⟩
       | _ => .error .typeError, s)⟩

/-- A one-channel drained batch for the pipeline determinism witness. -/
def dbC9 : DataBuffer Int := ⟨none, [("x", ⟨[], [[1], [2], [3]]⟩)]⟩

/-! ## Helper lemmas -/

theorem dictGet_dictSet_self {α : Type} (l : List (String × α)) (k : String) (v : α) :
    dictGet (dictSet l k v) k = some v := by
  induction l with
  | nil => simp [dictSet, dictGet]
  | cons kv rest ih =>
      by_cases h : kv.1 = k
      · simp [dictSet, dictGet, h]
      · simpa [dictSet, dictGet, h] using ih

theorem dictGet_dictSet_ne {α : Type} (l : List (String × α)) (k k2 : String) (v : α)
    (h : k ≠ k2) : dictGet (dictSet l k v) k2 = dictGet l k2 := by
  induction l with
  | nil => simp [dictSet, dictGet, h]
  | cons kv rest ih =>
      by_cases hk : kv.1 = k
      · simp [dictSet, dictGet, hk, h]
      · simp [dictSet, dictGet, hk]
        split
        · rfl
        · exact ih

theorem dictGet_map {α : Type} (l : List (String × NpArr α)) (f : NpArr α → NpArr α)
    (k : String) :
    dictGet (l.map (fun kv => (kv.1, f kv.2))) k = (dictGet l k).map f := by
  induction l with
  | nil => simp [dictGet]
  | cons kv rest ih =>
      by_cases h : kv.1 = k
      · simp [dictGet, h]
      · simpa [dictGet, h] using ih

theorem takeLastN_length {γ : Type} (n : Nat) (l : List γ) :
    (takeLastN n l).length = min n l.length := by
  simp [takeLastN]
  omega

theorem takeLastN_eq_reverse_take {γ : Type} (n : Nat) (l : List γ) :
    takeLastN n l = (l.reverse.take n).reverse := by
  have h1 : (takeLastN n l).reverse = (l.reverse.take n).reverse.reverse := by
    rw [takeLastN, List.reverse_drop, List.reverse_reverse]
    rw [List.take_eq_take]
    simp
    omega
  have := congrArg List.reverse h1
  simpa using this

theorem takeLastN_nil_of_small {γ : Type} (n : Nat) (l : List γ) (hn : 1 ≤ n)
    (h : takeLastN n l = []) : l = [] := by
  have hl := congrArg List.length h
  rw [takeLastN_length] at hl
  simp at hl
  rcases hl with hl | hl
  · omega
  · exact hl

theorem takeLastN_append_absorb {γ : Type} (n : Nat) (h t : List γ) :
    takeLastN n (takeLastN n h ++ t) = takeLastN n (h ++ t) := by
  rw [takeLastN_eq_reverse_take n (takeLastN n h ++ t), takeLastN_eq_reverse_take n (h ++ t),
    takeLastN_eq_reverse_take n h]
  simp only [List.reverse_append, List.reverse_reverse, List.take_append_eq_append_take,
    List.take_take, List.length_take, List.length_reverse]
  have hm : (n - t.length) ⊓ n = n - t.length := by omega
  rw [hm]

/-- stC1 after the single call with samples 1,2,3. -/
def stC1s : WState Int Int :=
  ⟨2, 0, 2, ⟨none, some [], ⟨[], [[3]]⟩⟩, ⟨none, some [], ⟨[], [[3]]⟩⟩, 0, true⟩

/-- stC1 after a call with the single sample 1. -/
def stC1a : WState Int Int :=
  ⟨2, 0, 2, ⟨none, some [], ⟨[], [[1]]⟩⟩, ⟨none, some [], ⟨[], []⟩⟩, 0, true⟩

/-- stC1a after a further call with the samples 2,3. -/
def stC1b : WState Int Int :=
  ⟨2, 0, 2, ⟨none, some [], ⟨[], [[3]]⟩⟩, ⟨none, some [], ⟨[], []⟩⟩, 0, true⟩

/-- stC2 after the first one-sample call. -/
def stC2a : WState Int Int :=
  ⟨4, 0, 4, ⟨none, some [], ⟨[], [[1]]⟩⟩, ⟨none, some [], ⟨[], [[0], [0]]⟩⟩, 0, true⟩

/-- stC2 after two one-sample calls. -/
def stC2b : WState Int Int :=
  ⟨4, 0, 4, ⟨none, some [], ⟨[], [[1], [2]]⟩⟩, ⟨none, some [], ⟨[], [[0]]⟩⟩, 0, true⟩

/-- stC2 after three one-sample calls: the output buffer is drained. -/
def stC2c : WState Int Int :=
  ⟨4, 0, 4, ⟨none, some [], ⟨[], [[1], [2], [3]]⟩⟩, ⟨none, some [], ⟨[], []⟩⟩, 0, true⟩

/-- The windowed state after stC2 has been fed the four samples 1..4 one
call at a time: both internal buffers have been drained empty. -/
def stC2After : WState Int Int :=
  ⟨4, 0, 4, ⟨none, some [], ⟨[], []⟩⟩, ⟨none, some [], ⟨[], []⟩⟩, 0, true⟩

/-! ## Claim theorems -/

/-- C10: popleft(0) succeeds on every buffer state, including the empty
one: it returns the empty element and leaves the buffer unchanged, both
for the dict-backed DataBuffer and for the NumpyBuffer. -/
theorem popleft_zero_succeeds : ∀ (db : DataBuffer Int) (nb : NumpyBuffer Int),
    db.popleft 0 = .ok ([], db) ∧ nb.popleft 0 = .ok (nbEmptyArr nb.cols, nb) := by
  intro db nb
  constructor
  · simp [DataBuffer.popleft]
  · simp [NumpyBuffer.popleft]

/-- C6: on a nonempty DataBuffer (the TimeSeriesBuffer), pop_front(1) does
not return the first time step as the docstring of Buffer.popleft
promises; it raises AttributeError, because the inherited popleft reads
self._data.shape[-1] and a dict has no attribute shape. -/
theorem databuffer_popleft_crashes :
    dbC6.popleft 1 = .error .attributeError ∧ dbC6.len = 2 := ⟨rfl, rfl⟩

/-- C1: chunk-size independence fails for the stateful
WindowedSignalFunction with upsampling: fed 1,2,3 as one call the output
is the two time steps 0,3, but fed as the chunks [1] then [2,3], starting
from the same fresh state, the outputs concatenate to the three time
steps 0,3,3 — the final popleft uses len(inputs) where inputs has been
rebound by the loop to the last window view. -/
theorem upsampled_windowed_chunk_dependent :
    initWindowing (α := Int) (β := Int) 2 [] 0 0 true = .ok stC1
    ∧ wCall sumWindow 100 stC1 ⟨[], [[1], [2], [3]]⟩ = some (.ok (⟨[], [[0], [3]]⟩, stC1s))
    ∧ wCall sumWindow 100 stC1 ⟨[], [[1]]⟩ = some (.ok (⟨[], [[0]]⟩, stC1a))
    ∧ wCall sumWindow 100 stC1a ⟨[], [[2], [3]]⟩ = some (.ok (⟨[], [[3], [3]]⟩, stC1b))
    ∧ ([[0], [3]] : List (List Int)) ≠ [[0]] ++ [[3], [3]] :=
  ⟨rfl, rfl, rfl, rfl, by decide⟩

/-- C2: with window_size=4, overlap=0 and upsampling, feeding one sample
per call does NOT return one time step per call: the first three calls
return one default each, the fourth call returns FOUR time steps (the
rebound len(inputs) is the window length), and the fifth call raises
IndexError popping from the now-empty output buffer. -/
theorem upsampled_call_wrong_length :
    initWindowing (α := Int) (β := Int) 4 [] 0 0 true = .ok stC2
    ∧ wCall sumWindow 100 stC2 ⟨[], [[1]]⟩ = some (.ok (⟨[], [[0]]⟩, stC2a))
    ∧ wCall sumWindow 100 stC2a ⟨[], [[2]]⟩ = some (.ok (⟨[], [[0]]⟩, stC2b))
    ∧ wCall sumWindow 100 stC2b ⟨[], [[3]]⟩ = some (.ok (⟨[], [[0]]⟩, stC2c))
    ∧ wCall sumWindow 100 stC2c ⟨[], [[4]]⟩
        = some (.ok (⟨[], [[10], [10], [10], [10]]⟩, stC2After))
    ∧ wCall sumWindow 100 stC2After ⟨[], [[5]]⟩ = some (.error .indexError) :=
  ⟨rfl, rfl, rfl, rfl, rfl, rfl⟩

/-- C3 counterexample: extending dbC3 with a batch whose second channel
has the wrong shape raises ValueError but does NOT leave the buffer
unchanged: channel a, listed before the offending channel b, has already
been extended in place. -/
theorem extend_mismatch_mutates_buffer :
    (dbC3.extend batchC3).2 = some PyErr.valueError
    ∧ dictGet (dbC3.extend batchC3).1.data "a" = some ⟨[], [[1], [2]]⟩
    ∧ (dbC3.extend batchC3).1 ≠ dbC3 :=
  ⟨rfl, rfl, by decide⟩

/-- C7 counterexample: constructing a windowed transform with
overlap = window_size = 2 raises no error at construction time:
init_windowing performs no parameter validation. -/
theorem init_windowing_accepts_bad_overlap :
    initWindowing (α := Int) (β := Int) 2 [] 2 0 false = .ok stOverlapBad := rfl

/-- C8 counterexample: the serialize/deserialize round trip fails for the
registered Inference function: its params record the model under the key
model, which is not a keyword of the constructor (model_filename), so
decoding raises TypeError. -/
theorem inference_roundtrip_fails :
    decodeSignalFn
      (encodeSignalFn (.inference "x" "out" (.str "model.onnx") (.bool false) .pynone))
      = .error .typeError := rfl

/-- C8 amended: the round trip reconstructs an equal instance for every
registered function whose recorded document binds back onto its
constructor (Scale, Sum, Difference, Stack, Differentiate with both
inputs) — but not for Inference, nor for Differentiate with input_b=None. -/
theorem roundtrip_reconstructible :
    ∀ f : SigFnData, reconstructible f = true → decodeSignalFn (encodeSignalFn f) = .ok f := by
  intro f h
  cases f with
  | scale i n sf => rfl
  | sum is n => rfl
  | difference a b n => rfl
  | stack is n ax => rfl
  | differentiate a b n =>
      cases b with
      | some bb => rfl
      | none => simp [reconstructible] at h
  | inference i n mf st is => simp [reconstructible] at h

/-- Witness for the amended C8 round trip at a concrete Scale instance. -/
theorem roundtrip_reconstructible_witness :
    reconstructible (.scale "x" "y" (.int 2)) = true
    ∧ decodeSignalFn (encodeSignalFn (.scale "x" "y" (.int 2))) = .ok (.scale "x" "y" (.int 2)) :=
  ⟨rfl, roundtrip_reconstructible (.scale "x" "y" (.int 2)) rfl⟩

theorem pySliceFrom_length_le {α : Type} (l : List α) (s : Int) :
    (pySliceFrom l s).length ≤ l.length := by
  unfold pySliceFrom
  split <;> simp

theorem npSlice_end_length_le {α : Type} (a : NpArr α) (n : Int) :
    (npSlice a n true).frames.length ≤ a.frames.length := by
  simp [npSlice]
  exact pySliceFrom_length_le _ _

theorem nbEmptyArr_frames {α : Type} (cols : Option (List Nat)) :
    (nbEmptyArr (α := α) cols).frames = [] := by
  cases cols <;> rfl

theorem nbConcat_pair_length {α : Type} (cols : Option (List Nat)) (a d c : NpArr α)
    (h : nbConcat cols [a, d] = .ok c) :
    c.frames.length ≤ a.frames.length + d.frames.length := by
  unfold nbConcat at h
  by_cases ha : npSize a ≠ 0 <;> by_cases hd : npSize d ≠ 0 <;>
    simp [ha, hd, List.filter] at h
  · split at h
    · cases h
      simp
    · cases h
  · cases h
    simp
  · cases h
    simp
  · cases h
    simp [nbEmptyArr_frames]

theorem extend_len_le {α : Type} (nb : NumpyBuffer α) (d : NpArr α) (nbR : NumpyBuffer α)
    (h : nb.extend d = .ok nbR) : nbR.len ≤ nb.len + d.frames.length := by
  unfold NumpyBuffer.extend at h
  dsimp only at h
  set nbi := nb.initColsIfNeeded d with hnbi
  have hdata : nbi.data = nb.data := by
    rw [hnbi]
    unfold NumpyBuffer.initColsIfNeeded
    split
    · rfl
    · split <;> rfl
  cases hv : nbi.validate d with
  | error e => rw [hv] at h; cases h
  | ok u =>
      rw [hv] at h
      cases hc : nbConcat nbi.cols [nbi.data, d] with
      | error e => rw [hc] at h; cases h
      | ok c =>
          rw [hc] at h
          have hlen : c.frames.length ≤ nb.len + d.frames.length := by
            have := nbConcat_pair_length nbi.cols nbi.data d c hc
            rw [hdata] at this
            exact this
          cases hm : nbi.maxlen with
          | none =>
              rw [hm] at h
              cases h
              simpa [NumpyBuffer.len] using hlen
          | some m =>
              rw [hm] at h
              cases h
              simp [NumpyBuffer.len]
              exact le_trans (npSlice_end_length_le c m) hlen

theorem popleft_pos_shrinks {α : Type} (nb : NumpyBuffer α) (n : Int)
    (hn : 1 ≤ n) (hl : 1 ≤ nb.len) :
    ∃ out nb2, nb.popleft n = .ok (out, nb2) ∧ nb2.len < nb.len := by
  unfold NumpyBuffer.popleft
  have h0 : ¬(n = 0) := by omega
  have hl2 : 1 ≤ nb.data.frames.length := hl
  have h1 : ¬(nb.len = 0) := by omega
  simp only [h0, h1, if_false, if_neg]
  refine ⟨_, _, rfl, ?_⟩
  show (if 0 < (nb.data.frames.length : Int) - n then
      npSlice nb.data ((nb.data.frames.length : Int) - n) true
    else nbEmptyArr nb.cols).frames.length < nb.len
  by_cases hpos : 0 < (nb.data.frames.length : Int) - n
  · rw [if_pos hpos]
    have hc : ¬(0 ≤ -((nb.data.frames.length : Int) - n)) := by omega
    simp only [npSlice, pySliceFrom, if_pos, if_neg hc, List.length_drop]
    show _ < nb.data.frames.length
    omega
  · rw [if_neg hpos]
    rw [nbEmptyArr_frames]
    show 0 < nb.data.frames.length
    omega

theorem wLoop_total {α β : Type} (wf : NpArr α → NpArr β) :
    ∀ (fuel : Nat) (st : WState α β) (cur : NpArr α),
    1 ≤ st.winSize → 1 ≤ st.numToPop → st.inputBuffer.len ≤ fuel →
    ∃ r, wLoop wf fuel st cur = some r ∧
      ∀ st2 cur2, r = .ok (st2, cur2) →
        st2.winSize = st.winSize ∧ (st2.inputBuffer.len : Int) < st.winSize := by
  intro fuel
  induction fuel with
  | zero =>
      intro st cur hw hp hf
      have hlen : st.inputBuffer.len = 0 := by omega
      have hg : ¬(st.winSize ≤ (st.inputBuffer.len : Int)) := by
        rw [hlen]; push_cast; omega
      refine ⟨.ok (st, cur), ?_, ?_⟩
      · simp [wLoop, hg]
      · intro st2 cur2 h2
        injection h2 with h2
        injection h2 with ha hb
        subst ha
        constructor
        · rfl
        · rw [hlen]; push_cast; omega
  | succ f ih =>
      intro st cur hw hp hf
      by_cases hg : st.winSize ≤ (st.inputBuffer.len : Int)
      · have hl1 : 1 ≤ st.inputBuffer.len := by
          by_contra hc
          have : st.inputBuffer.len = 0 := by omega
          rw [this] at hg
          push_cast at hg
          omega
        obtain ⟨out, ib2, hpop, hless⟩ := popleft_pos_shrinks st.inputBuffer st.numToPop hp hl1
        rw [show wLoop wf (f + 1) st cur =
          (if st.winSize ≤ (st.inputBuffer.len : Int) then
            let cur2 := st.inputBuffer.view st.winSize
            match st.inputBuffer.popleft st.numToPop with
            | .error e => some (.error e)
            | .ok (_, ib2) =>
                let out := wf cur2
                match (if st.upsample then npRepeat out st.numToPop else .ok out) with
                | .error e => some (.error e)
                | .ok ups =>
                    match st.outputBuffer.extend ups with
                    | .error e => some (.error e)
                    | .ok ob2 =>
                        wLoop wf f { st with inputBuffer := ib2, outputBuffer := ob2 } cur2
          else some (.ok (st, cur))) from rfl]
        rw [if_pos hg, hpop]
        dsimp only
        have hrep : ∃ ups, (if st.upsample then npRepeat (wf (st.inputBuffer.view st.winSize)) st.numToPop
            else .ok (wf (st.inputBuffer.view st.winSize))) = .ok ups := by
          by_cases hu : st.upsample
          · rw [if_pos hu]
            unfold npRepeat
            rw [if_neg (by omega)]
            exact ⟨_, rfl⟩
          · rw [if_neg hu]
            exact ⟨_, rfl⟩
        obtain ⟨ups, hups⟩ := hrep
        rw [hups]
        dsimp only
        cases hext : st.outputBuffer.extend ups with
        | error e =>
            refine ⟨.error e, rfl, ?_⟩
            intro st2 cur2 h2
            cases h2
        | ok ob2 =>
            have := ih { st with inputBuffer := ib2, outputBuffer := ob2 }
              (st.inputBuffer.view st.winSize) hw hp (by simpa using by omega)
            obtain ⟨r, hr, hprop⟩ := this
            refine ⟨r, hr, ?_⟩
            intro st2 cur2 h2
            obtain ⟨hwin, hlt⟩ := hprop st2 cur2 h2
            exact ⟨hwin, by simpa [hwin] using hlt⟩
      · refine ⟨.ok (st, cur), ?_, ?_⟩
        · simp [wLoop, hg]
        · intro st2 cur2 h2
          injection h2 with h2
          injection h2 with ha hb
          subst ha
          exact ⟨rfl, by omega⟩

/-- C5: after any call on a windowed transform whose parameters satisfy
window_size >= 1 and 0 <= overlap < window_size (so hop >= 1), if the call
returns, the internal input accumulator holds strictly fewer than
window_size samples: the drain loop terminates within the given fuel and
leaves len(input_buffer) < window_size. -/
theorem window_draining_invariant :
    ∀ (st : WState Int Int) (wf : NpArr Int → NpArr Int) (inputs : NpArr Int) (fuel : Nat),
    1 ≤ st.winSize → 0 ≤ st.windowOverlap → st.windowOverlap < st.winSize →
    st.numToPop = st.winSize - st.windowOverlap →
    st.inputBuffer.len + inputs.frames.length ≤ fuel →
    wCall wf fuel st inputs ≠ none ∧
    ∀ out stF, wCall wf fuel st inputs = some (.ok (out, stF)) →
      (stF.inputBuffer.len : Int) < st.winSize := by
  intro st wf inputs fuel hw ho1 ho2 hnp hf
  have hp : 1 ≤ st.numToPop := by omega
  unfold wCall
  cases hext : st.inputBuffer.extend inputs with
  | error e =>
      constructor
      · simp
      · intro out stF h
        simp at h
  | ok ib1 =>
      have hlen : ib1.len ≤ fuel := by
        have := extend_len_le st.inputBuffer inputs ib1 hext
        omega
      obtain ⟨r, hr, hprop⟩ :=
        wLoop_total wf fuel { st with inputBuffer := ib1 } inputs hw hp hlen
      dsimp only
      rw [hr]
      cases r with
      | error e =>
          constructor
          · simp
          · intro out stF h
            simp at h
      | ok p =>
          obtain ⟨st2, cur⟩ := p
          obtain ⟨hwin, hlt⟩ := hprop st2 cur rfl
          dsimp only
          constructor
          · split <;> split <;> simp
          · intro out stF h
            split at h
            · split at h
              · simp at h
              · simp at h
                obtain ⟨h1, h2⟩ := h
                subst h2
                exact hlt
            · split at h
              · simp at h
              · simp at h
                obtain ⟨h1, h2⟩ := h
                subst h2
                exact hlt

/-- Witness for C5 at a fresh window_size=2, overlap=0 windowed state fed
the samples 1,2,3 with fuel 10. -/
theorem window_draining_invariant_witness :
    ((1 : Int) ≤ stC1.winSize ∧ (0 : Int) ≤ stC1.windowOverlap
      ∧ stC1.windowOverlap < stC1.winSize
      ∧ stC1.numToPop = stC1.winSize - stC1.windowOverlap
      ∧ stC1.inputBuffer.len + (⟨[], [[1], [2], [3]]⟩ : NpArr Int).frames.length ≤ 10)
    ∧ (wCall sumWindow 10 stC1 ⟨[], [[1], [2], [3]]⟩ ≠ none
      ∧ ∀ out stF, wCall sumWindow 10 stC1 ⟨[], [[1], [2], [3]]⟩ = some (.ok (out, stF)) →
          (stF.inputBuffer.len : Int) < stC1.winSize) :=
  ⟨⟨by decide, by decide, by decide, by decide, by decide⟩,
    window_draining_invariant stC1 sumWindow ⟨[], [[1], [2], [3]]⟩ 10
      (by decide) (by decide) (by decide) (by decide) (by decide)⟩

theorem npSlice_end_all {α : Type} (a : NpArr α) (n : Int)
    (h : (a.frames.length : Int) ≤ n) : npSlice a n true = a := by
  have hfr : pySliceFrom a.frames (-n) = a.frames := by
    unfold pySliceFrom
    by_cases h2 : (0 : Int) ≤ -n
    · rw [if_pos h2]
      have h3 : a.frames.length = 0 := by omega
      have hnil : a.frames = [] := List.eq_nil_of_length_eq_zero h3
      rw [hnil]
      simp
    · rw [if_neg h2]
      have h3 : a.frames.length - (-(-n)).toNat = 0 := by omega
      rw [h3]
      simp
  have h0 : npSlice a n true = ⟨a.shape, pySliceFrom a.frames (-n)⟩ := rfl
  rw [h0, hfr]

theorem popleft_nonpos_id {α : Type} (nb : NumpyBuffer α) (n : Int)
    (hn : n ≤ 0) (hl : 1 ≤ nb.len) :
    ∃ out, nb.popleft n = .ok (out, nb) := by
  by_cases h0 : n = 0
  · subst h0
    exact ⟨_, rfl⟩
  · unfold NumpyBuffer.popleft
    have h1 : ¬(nb.len = 0) := by omega
    simp only [h0, h1, if_false, if_neg]
    refine ⟨npSlice nb.data n false, ?_⟩
    dsimp only
    have hl2 : 1 ≤ nb.data.frames.length := hl
    have hk : (0 : Int) < (nb.data.frames.length : Int) - n := by omega
    rw [if_pos hk, npSlice_end_all nb.data ((nb.data.frames.length : Int) - n) (by omega)]

theorem npSlice_shape {α : Type} (a : NpArr α) (n : Int) (e : Bool) :
    (npSlice a n e).shape = a.shape := by
  unfold npSlice
  split <;> rfl

theorem nbConcat_pair_shape {α : Type} (osh : List Nat) (a d : NpArr α)
    (ha : a.shape = osh) (hd : d.shape = osh) :
    ∃ c, nbConcat (some osh) [a, d] = .ok c ∧ c.shape = osh := by
  unfold nbConcat
  by_cases h1 : npSize a ≠ 0 <;> by_cases h2 : npSize d ≠ 0 <;>
    simp [h1, h2, List.filter, ha, hd]
  rfl

theorem extend_shape_keeps {α : Type} (ob : NumpyBuffer α) (d : NpArr α) (osh : List Nat)
    (hc : ob.cols = some osh) (hs : ob.data.shape = osh) (hd : d.shape = osh) :
    ∃ ob2, ob.extend d = .ok ob2 ∧ ob2.cols = some osh ∧ ob2.data.shape = osh
      ∧ ob2.maxlen = ob.maxlen := by
  have hinit : ob.initColsIfNeeded d = ob := by
    unfold NumpyBuffer.initColsIfNeeded
    split
    · rfl
    · rw [hc]
  have hval : ob.validate d = .ok () := by
    unfold NumpyBuffer.validate
    split
    · rfl
    · rw [if_pos (by rw [hd, hc])]
  obtain ⟨c, hcon, hcs⟩ := nbConcat_pair_shape osh ob.data d hs hd
  unfold NumpyBuffer.extend
  dsimp only
  rw [hinit, hval, hc]
  rw [show nbConcat (some osh) [ob.data, d] = .ok c from hcon]
  cases hm : ob.maxlen with
  | none => exact ⟨_, rfl, rfl, hcs, rfl⟩
  | some m =>
      refine ⟨_, rfl, rfl, ?_, rfl⟩
      rw [npSlice_shape]
      exact hcs

theorem wLoop_stuck (osh : List Nat) :
    ∀ (fuel : Nat) (st : WState Int Int) (cur : NpArr Int),
    st.numToPop ≤ 0 → 1 ≤ st.winSize →
    st.winSize ≤ (st.inputBuffer.len : Int) → st.upsample = false →
    st.outputBuffer.cols = some osh → st.outputBuffer.data.shape = osh →
    wLoop (constWinFn osh) fuel st cur = none := by
  intro fuel
  induction fuel with
  | zero =>
      intro st cur hnp hw hg hu hc hs
      unfold wLoop
      rw [if_pos hg]
  | succ f ih =>
      intro st cur hnp hw hg hu hc hs
      have hl1 : 1 ≤ st.inputBuffer.len := by
        by_contra hcon
        have h0 : st.inputBuffer.len = 0 := by omega
        rw [h0] at hg
        push_cast at hg
        omega
      obtain ⟨out1, hpop⟩ := popleft_nonpos_id st.inputBuffer st.numToPop hnp hl1
      obtain ⟨ob2, hext, hc2, hs2, hm2⟩ :=
        extend_shape_keeps st.outputBuffer
          (constWinFn osh (st.inputBuffer.view st.winSize)) osh hc hs rfl
      unfold wLoop
      rw [if_pos hg]
      dsimp only
      rw [hpop]
      dsimp only
      have hif : (if st.upsample = true
          then npRepeat (constWinFn osh (st.inputBuffer.view st.winSize)) st.numToPop
          else .ok (constWinFn osh (st.inputBuffer.view st.winSize)))
          = .ok (constWinFn osh (st.inputBuffer.view st.winSize)) := by
        rw [hu]
        simp
      rw [hif]
      dsimp only
      rw [hext]
      dsimp only
      exact ih _ _ hnp hw hg hu hc2 hs2

theorem ibInit_extend (inp : NpArr Int) (h1 : inp.frames.length ≠ 0)
    (h2 : npSize inp ≠ 0) :
    (ibInit (α := Int)).extend inp = .ok ⟨none, some inp.shape, inp⟩ := by
  unfold NumpyBuffer.extend ibInit
  dsimp only
  have hinit : (⟨none, none, nbEmptyArr none⟩ : NumpyBuffer Int).initColsIfNeeded inp
      = ⟨none, some inp.shape, nbEmptyArr none⟩ := by
    unfold NumpyBuffer.initColsIfNeeded
    rw [if_neg h1]
  rw [hinit]
  have hval : (⟨none, some inp.shape, nbEmptyArr none⟩ : NumpyBuffer Int).validate inp
      = .ok () := by
    unfold NumpyBuffer.validate
    rw [if_neg h1, if_pos rfl]
  rw [hval]
  have hcon : nbConcat (some inp.shape) [(nbEmptyArr none : NpArr Int), inp] = .ok inp := by
    unfold nbConcat
    have hz : npSize (nbEmptyArr none : NpArr Int) = 0 := rfl
    simp [hz, h2, List.filter]
  rw [hcon]

/-- C7 amended: init_windowing validates nothing: with upsample disabled,
construction succeeds for EVERY window_size and overlap (in particular for
overlap >= window_size and for non-positive window_size); and on an
instance with 1 <= window_size <= overlap, a call that has accumulated at
least window_size samples of actual data never terminates, whatever fuel
the drain loop is given: the loop pops a non-positive count and the input
buffer never shrinks. -/
theorem overlap_ge_window_call_diverges :
    ∀ (ws ov : Int) (oshape : List Nat) (dv : Int),
    (initWindowing (α := Int) (β := Int) ws oshape ov dv false
      = .ok ⟨ws, ov, ws - ov, ibInit, obInit oshape, dv, false⟩)
    ∧ (∀ (st : WState Int Int) (inp : NpArr Int) (fuel : Nat),
        initWindowing (α := Int) (β := Int) ws oshape ov dv false = .ok st →
        1 ≤ ws → ws ≤ ov → ws ≤ (inp.frames.length : Int) →
        inp.shape.prod ≠ 0 →
        wCall (constWinFn oshape) fuel st inp = none) := by
  intro ws ov oshape dv
  constructor
  · rfl
  · intro st inp fuel hinit hw hov hlen hprod
    have hst : st = ⟨ws, ov, ws - ov, ibInit, obInit oshape, dv, false⟩ := by
      have : (Except.ok (⟨ws, ov, ws - ov, ibInit, obInit oshape, dv, false⟩ : WState Int Int)
          : Except PyErr (WState Int Int)) = .ok st := hinit ▸ rfl
      injection this with h
      exact h.symm
    subst hst
    have hfr : inp.frames.length ≠ 0 := by
      intro h0
      rw [h0] at hlen
      push_cast at hlen
      omega
    have hsz : npSize inp ≠ 0 := by
      unfold npSize
      intro h0
      rcases Nat.mul_eq_zero.mp h0 with h | h
      · exact hprod h
      · exact hfr h
    unfold wCall
    dsimp only
    rw [show (ibInit (α := Int)).extend inp = .ok ⟨none, some inp.shape, inp⟩ from
      ibInit_extend inp hfr hsz]
    dsimp only
    rw [wLoop_stuck oshape fuel _ inp (by dsimp only; omega) hw (by exact hlen) rfl rfl rfl]

/-- Witness for the amended C7 at window_size=2, overlap=2: construction
succeeds and a call carrying two samples runs the drain loop dry with fuel
1000. -/
theorem overlap_ge_window_call_diverges_witness :
    (initWindowing (α := Int) (β := Int) 2 [] 2 0 false = .ok stOverlapBad
      ∧ (1 : Int) ≤ 2 ∧ (2 : Int) ≤ 2
      ∧ (2 : Int) ≤ ((⟨[], [[1], [2]]⟩ : NpArr Int).frames.length : Int)
      ∧ (⟨[], [[1], [2]]⟩ : NpArr Int).shape.prod ≠ 0)
    ∧ wCall (constWinFn []) 1000 stOverlapBad ⟨[], [[1], [2]]⟩ = none :=
  ⟨⟨rfl, by decide, by decide, by decide, by decide⟩,
    (overlap_ge_window_call_diverges 2 2 [] 0).2 stOverlapBad ⟨[], [[1], [2]]⟩ 1000
      rfl (by decide) (by decide) (by decide) (by decide)⟩

theorem dbConcatGo_compat_prefix :
    ∀ (pre rest : Batch Int) (cur : List (String × NpArr Int)),
    (∀ p ∈ pre, ∃ old, dictGet cur p.1 = some old ∧ old.shape = p.2.shape) →
    (pre.map Prod.fst).Nodup →
    ∃ cur2, dbConcatGo cur (pre ++ rest) = dbConcatGo cur2 rest
      ∧ (∀ q, q ∉ pre.map Prod.fst → dictGet cur2 q = dictGet cur q)
      ∧ (∀ p ∈ pre, ∃ old, dictGet cur p.1 = some old
          ∧ dictGet cur2 p.1 = some ⟨old.shape, old.frames ++ p.2.frames⟩) := by
  intro pre
  induction pre with
  | nil =>
      intro rest cur hcomp hnd
      exact ⟨cur, rfl, fun q _ => rfl, fun p hp => absurd hp (List.not_mem_nil p)⟩
  | cons kv pre ih =>
      intro rest cur hcomp hnd
      obtain ⟨k0, v0⟩ := kv
      obtain ⟨old0, hold0, hsh0⟩ := hcomp (k0, v0) (List.mem_cons_self _ _)
      have hk0 : k0 ∉ pre.map Prod.fst := by
        simp only [List.map_cons, List.nodup_cons] at hnd
        exact hnd.1
      have hnd2 : (pre.map Prod.fst).Nodup := by
        simp only [List.map_cons, List.nodup_cons] at hnd
        exact hnd.2
      have hstep : dbConcatGo cur (((k0, v0) :: pre) ++ rest)
          = dbConcatGo (dictSet cur k0 ⟨old0.shape, old0.frames ++ v0.frames⟩) (pre ++ rest) := by
        show dbConcatGo cur ((k0, v0) :: (pre ++ rest)) = _
        conv_lhs => rw [dbConcatGo]
        rw [hold0]
        dsimp only
        rw [if_pos hsh0]
      have hcomp2 : ∀ p ∈ pre, ∃ old,
          dictGet (dictSet cur k0 ⟨old0.shape, old0.frames ++ v0.frames⟩) p.1 = some old
          ∧ old.shape = p.2.shape := by
        intro p hp
        obtain ⟨old, ho, hs⟩ := hcomp p (List.mem_cons_of_mem _ hp)
        have hne : k0 ≠ p.1 := by
          intro hcon
          exact hk0 (hcon ▸ List.mem_map_of_mem Prod.fst hp)
        exact ⟨old, by rw [dictGet_dictSet_ne _ _ _ _ hne]; exact ho, hs⟩
      obtain ⟨cur2, heq, hsame, hupd⟩ :=
        ih rest (dictSet cur k0 ⟨old0.shape, old0.frames ++ v0.frames⟩) hcomp2 hnd2
      refine ⟨cur2, by rw [hstep, heq], ?_, ?_⟩
      · intro q hq
        simp only [List.map_cons, List.mem_cons] at hq
        push_neg at hq
        rw [hsame q hq.2, dictGet_dictSet_ne _ _ _ _ (fun hcon => hq.1 hcon.symm)]
      · intro p hp
        rcases List.mem_cons.mp hp with hp0 | hp1
        · subst hp0
          refine ⟨old0, hold0, ?_⟩
          rw [hsame k0 hk0, dictGet_dictSet_self]
        · obtain ⟨old, ho, hc2⟩ := hupd p hp1
          have hne : k0 ≠ p.1 := by
            intro hcon
            exact hk0 (hcon ▸ List.mem_map_of_mem Prod.fst hp1)
          rw [dictGet_dictSet_ne _ _ _ _ hne] at ho
          exact ⟨old, ho, hc2⟩

/-- C3 amended: when a channel in the extend argument mismatches the
stored non-time shape, extend raises ValueError, the offending channel
keeps its old contents, but every compatible channel listed BEFORE it has
already been extended — the buffer is not left unchanged. -/
theorem extend_partial_update_on_mismatch :
    ∀ (db : DataBuffer Int) (pre post : Batch Int) (k : String) (v vOld : NpArr Int),
    db.len ≠ 0 →
    (∀ p ∈ pre, ∃ old, dictGet db.data p.1 = some old ∧ old.shape = p.2.shape) →
    (pre.map Prod.fst).Nodup →
    k ∉ pre.map Prod.fst →
    dictGet db.data k = some vOld →
    vOld.shape ≠ v.shape →
    (db.extend (pre ++ (k, v) :: post)).2 = some PyErr.valueError
    ∧ dictGet (db.extend (pre ++ (k, v) :: post)).1.data k = some vOld
    ∧ ∀ p ∈ pre, ∃ old, dictGet db.data p.1 = some old
        ∧ dictGet (db.extend (pre ++ (k, v) :: post)).1.data p.1
          = some ⟨old.shape, old.frames ++ p.2.frames⟩ := by
  intro db pre post k v vOld hlen hcomp hnd hkpre hvOld hmis
  obtain ⟨cur2, heq, hsame, hupd⟩ := dbConcatGo_compat_prefix pre ((k, v) :: post) db.data hcomp hnd
  have hget2 : dictGet cur2 k = some vOld := by
    rw [hsame k hkpre, hvOld]
  have hstep : dbConcatGo cur2 ((k, v) :: post) = (cur2, some PyErr.valueError) := by
    conv_lhs => rw [dbConcatGo]
    rw [hget2]
    dsimp only
    rw [if_neg hmis]
  have hinit : db.initColsIfNeeded (pre ++ (k, v) :: post) = db := by
    unfold DataBuffer.initColsIfNeeded
    rw [if_neg hlen]
  have hext : db.extend (pre ++ (k, v) :: post) = ({ db with data := cur2 }, some PyErr.valueError) := by
    unfold DataBuffer.extend
    dsimp only
    rw [hinit, heq, hstep]
  rw [hext]
  refine ⟨rfl, hget2, ?_⟩
  intro p hp
  obtain ⟨old, ho, hc2⟩ := hupd p hp
  exact ⟨old, ho, hc2⟩

/-- Witness for the amended C3 at the concrete two-channel buffer dbC3
extended with a compatible update to channel a followed by a mismatched
update to channel b. -/
theorem extend_partial_update_on_mismatch_witness :
    (dbC3.len ≠ 0
      ∧ (["a"] : List String).Nodup
      ∧ "b" ∉ (["a"] : List String)
      ∧ dictGet dbC3.data "b" = some ⟨[], [[5]]⟩
      ∧ (⟨[], [[5]]⟩ : NpArr Int).shape ≠ (⟨[2], [[7, 8]]⟩ : NpArr Int).shape)
    ∧ ((dbC3.extend ([("a", ⟨[], [[2]]⟩)] ++ ("b", ⟨[2], [[7, 8]]⟩) :: [])).2
        = some PyErr.valueError
      ∧ dictGet (dbC3.extend ([("a", ⟨[], [[2]]⟩)] ++ ("b", ⟨[2], [[7, 8]]⟩) :: [])).1.data "b"
        = some ⟨[], [[5]]⟩
      ∧ ∀ p ∈ ([("a", ⟨[], [[2]]⟩)] : Batch Int), ∃ old, dictGet dbC3.data p.1 = some old
          ∧ dictGet (dbC3.extend ([("a", ⟨[], [[2]]⟩)] ++ ("b", ⟨[2], [[7, 8]]⟩) :: [])).1.data p.1
            = some ⟨old.shape, old.frames ++ p.2.frames⟩) :=
  ⟨⟨by decide, by decide, by decide, rfl, by decide⟩,
    extend_partial_update_on_mismatch dbC3 [("a", ⟨[], [[2]]⟩)] [] "b" ⟨[2], [[7, 8]]⟩ ⟨[], [[5]]⟩
      (by decide)
      (by
        intro p hp
        simp only [List.mem_singleton] at hp
        subst hp
        exact ⟨⟨[], [[1]]⟩, rfl, rfl⟩)
      (by decide) (by decide) rfl (by decide)⟩

theorem batchFrames_cons {k k0 : String} (v0 : NpArr Int) (rest : Batch Int) :
    batchFrames k ((k0, v0) :: rest)
      = if k0 = k then v0.frames ++ batchFrames k rest else batchFrames k rest := by
  unfold batchFrames
  by_cases h : k0 = k <;> simp [h, List.filter]

theorem batchFrames_nil_of_not_mem {k : String} (b : Batch Int)
    (h : k ∉ b.map Prod.fst) : batchFrames k b = [] := by
  induction b with
  | nil => rfl
  | cons kv rest ih =>
      obtain ⟨k0, v0⟩ := kv
      simp only [List.map_cons, List.mem_cons] at h
      push_neg at h
      rw [batchFrames_cons, if_neg (fun hc => h.1 hc.symm)]
      exact ih h.2

theorem histFrames_append_one {k : String} (done : List (Batch Int)) (b : Batch Int) :
    histFrames k (done ++ [b]) = histFrames k done ++ batchFrames k b := by
  simp [histFrames]

theorem dictGet_mem {α : Type} {l : List (String × α)} {k : String} {v : α}
    (h : dictGet l k = some v) : (k, v) ∈ l := by
  induction l with
  | nil => cases h
  | cons kv rest ih =>
      obtain ⟨k0, v0⟩ := kv
      unfold dictGet at h
      split at h
      · rename_i heq
        injection h with h
        subst h
        subst heq
        exact List.mem_cons_self _ _
      · exact List.mem_cons_of_mem _ (ih h)

theorem foldl_max_le (l : List Nat) : ∀ (a : Nat), a ≤ l.foldl Nat.max a
    ∧ ∀ x ∈ l, x ≤ l.foldl Nat.max a := by
  induction l with
  | nil => intro a; exact ⟨le_refl a, by simp⟩
  | cons b l ih =>
      intro a
      constructor
      · calc a ≤ Nat.max a b := Nat.le_max_left a b
          _ ≤ l.foldl Nat.max (Nat.max a b) := (ih (Nat.max a b)).1
      · intro x hx
        rcases List.mem_cons.mp hx with hx | hx
        · subst hx
          calc x ≤ Nat.max a x := Nat.le_max_right a x
            _ ≤ l.foldl Nat.max (Nat.max a x) := (ih (Nat.max a x)).1
        · exact (ih (Nat.max a b)).2 x hx

theorem dbLen_zero_frames {db : DataBuffer Int} (h : db.len = 0) :
    ∀ k v, dictGet db.data k = some v → v.frames = [] := by
  intro k v hget
  have hmem := dictGet_mem hget
  unfold DataBuffer.len at h
  split at h
  · rename_i hemp
    rw [List.isEmpty_iff] at hemp
    rw [hemp] at hmem
    cases hmem
  · have hle : v.frames.length ≤ (db.data.map (fun kv => kv.2.frames.length)).foldl Nat.max 0 := by
      apply (foldl_max_le _ 0).2
      exact List.mem_map_of_mem _ hmem
    rw [h] at hle
    exact List.eq_nil_of_length_eq_zero (Nat.le_zero.mp hle)

theorem npSlice_end_pos (a : NpArr Int) (B : Nat) (hB : 1 ≤ B) :
    (npSlice a (B : Int) true).frames = takeLastN B a.frames := by
  have h0 : npSlice a (B : Int) true = ⟨a.shape, pySliceFrom a.frames (-(B : Int))⟩ := rfl
  rw [h0]
  unfold pySliceFrom takeLastN
  rw [if_neg (by omega)]
  have : a.frames.length - (-(-(B : Int))).toNat = a.frames.length - B := by omega
  rw [this]

theorem dbConcatGo_ok_lookup :
    ∀ (new : Batch Int) (cur d2 : List (String × NpArr Int)),
    dbConcatGo cur new = (d2, none) →
    ∀ k : String,
      (∀ old, dictGet cur k = some old →
        dictGet d2 k = some ⟨old.shape, old.frames ++ batchFrames k new⟩)
      ∧ (dictGet cur k = none →
          (k ∈ new.map Prod.fst → ∃ sh, dictGet d2 k = some ⟨sh, batchFrames k new⟩)
          ∧ (k ∉ new.map Prod.fst → dictGet d2 k = none)) := by
  intro new
  induction new with
  | nil =>
      intro cur d2 h k
      have hd : d2 = cur := by
        unfold dbConcatGo at h
        injection h with h1 h2
        exact h1.symm
      subst hd
      refine ⟨?_, ?_⟩
      · intro old ho
        unfold batchFrames
        simp only [List.filter_nil, List.flatMap_nil, List.append_nil]
        exact ho
      · intro hn
        refine ⟨?_, fun _ => hn⟩
        intro hmem
        simp at hmem
  | cons kv rest ih =>
      intro cur d2 h k
      obtain ⟨k0, v0⟩ := kv
      simp only [dbConcatGo] at h
      cases hg : dictGet cur k0 with
      | some old0 =>
          rw [hg] at h
          dsimp only at h
          by_cases hsh : old0.shape = v0.shape
          · rw [if_pos hsh] at h
            have hih := ih (dictSet cur k0 ⟨old0.shape, old0.frames ++ v0.frames⟩) d2 h k
            by_cases hk : k0 = k
            · subst hk
              refine ⟨?_, ?_⟩
              · intro old ho
                rw [hg] at ho
                injection ho with ho
                have h2 := hih.1 ⟨old0.shape, old0.frames ++ v0.frames⟩ (dictGet_dictSet_self _ _ _)
                rw [h2, batchFrames_cons, if_pos rfl, ← ho]
                simp [List.append_assoc]
              · intro hn
                rw [hg] at hn
                cases hn
            · refine ⟨?_, ?_⟩
              · intro old ho
                have := hih.1 old (by rw [dictGet_dictSet_ne _ _ _ _ hk]; exact ho)
                rw [this, batchFrames_cons, if_neg hk]
              · intro hn
                have hn2 : dictGet (dictSet cur k0 ⟨old0.shape, old0.frames ++ v0.frames⟩) k = none := by
                  rw [dictGet_dictSet_ne _ _ _ _ hk]
                  exact hn
                have hb := hih.2 hn2
                constructor
                · intro hmem
                  have hmem2 : k ∈ rest.map Prod.fst := by
                    simp only [List.map_cons, List.mem_cons] at hmem
                    rcases hmem with hc | hc
                    · exact absurd hc.symm hk
                    · exact hc
                  obtain ⟨sh, hs⟩ := hb.1 hmem2
                  refine ⟨sh, ?_⟩
                  rw [hs, batchFrames_cons, if_neg hk]
                · intro hmem
                  have hmem2 : k ∉ rest.map Prod.fst := by
                    intro hc
                    exact hmem (by simp only [List.map_cons, List.mem_cons]; right; exact hc)
                  exact hb.2 hmem2
          · rw [if_neg hsh] at h
            injection h with h1 h2
            cases h2
      | none =>
          rw [hg] at h
          dsimp only at h
          have hih := ih (dictSet cur k0 v0) d2 h k
          by_cases hk : k0 = k
          · subst hk
            refine ⟨?_, ?_⟩
            · intro old ho
              rw [hg] at ho
              cases ho
            · intro _
              constructor
              · intro _
                have := hih.1 v0 (dictGet_dictSet_self _ _ _)
                refine ⟨v0.shape, ?_⟩
                rw [this, batchFrames_cons, if_pos rfl]
              · intro hmem
                exact absurd (by simp : k0 ∈ ((k0, v0) :: rest).map Prod.fst) hmem
          · refine ⟨?_, ?_⟩
            · intro old ho
              have := hih.1 old (by rw [dictGet_dictSet_ne _ _ _ _ hk]; exact ho)
              rw [this, batchFrames_cons, if_neg hk]
            · intro hn
              have hn2 : dictGet (dictSet cur k0 v0) k = none := by
                rw [dictGet_dictSet_ne _ _ _ _ hk]
                exact hn
              have hb := hih.2 hn2
              constructor
              · intro hmem
                have hmem2 : k ∈ rest.map Prod.fst := by
                  simp only [List.map_cons, List.mem_cons] at hmem
                  rcases hmem with hc | hc
                  · exact absurd hc.symm hk
                  · exact hc
                obtain ⟨sh, hs⟩ := hb.1 hmem2
                refine ⟨sh, ?_⟩
                rw [hs, batchFrames_cons, if_neg hk]
              · intro hmem
                have hmem2 : k ∉ rest.map Prod.fst := by
                  intro hc
                  exact hmem (by simp only [List.map_cons, List.mem_cons]; right; exact hc)
                exact hb.2 hmem2

theorem resetFold_lookup :
    ∀ (new : Batch Int) (acc : List (String × NpArr Int)) (k : String),
    (k ∉ new.map Prod.fst →
      dictGet (new.foldl (fun a kv => dictSet a kv.1 ⟨kv.2.shape, []⟩) acc) k = dictGet acc k)
    ∧ (k ∈ new.map Prod.fst →
      ∃ sh, dictGet (new.foldl (fun a kv => dictSet a kv.1 ⟨kv.2.shape, []⟩) acc) k
        = some ⟨sh, []⟩) := by
  intro new
  induction new with
  | nil =>
      intro acc k
      exact ⟨fun _ => rfl, fun h => by simp at h⟩
  | cons kv rest ih =>
      intro acc k
      obtain ⟨k0, v0⟩ := kv
      rw [List.foldl_cons]
      constructor
      · intro hn
        simp only [List.map_cons, List.mem_cons] at hn
        push_neg at hn
        rw [(ih (dictSet acc k0 ⟨v0.shape, []⟩) k).1 hn.2]
        exact dictGet_dictSet_ne _ _ _ _ (fun hc => hn.1 hc.symm)
      · intro hm
        by_cases hr : k ∈ rest.map Prod.fst
        · exact (ih (dictSet acc k0 ⟨v0.shape, []⟩) k).2 hr
        · have hk0 : k0 = k := by
            simp only [List.map_cons, List.mem_cons] at hm
            rcases hm with hc | hc
            · exact hc.symm
            · exact absurd hc hr
          subst hk0
          refine ⟨v0.shape, ?_⟩
          rw [(ih (dictSet acc k0 ⟨v0.shape, []⟩) k0).1 hr]
          exact dictGet_dictSet_self _ _ _

/-- The invariant tying a bounded DataBuffer to the history of batches it
has absorbed: every stored channel holds exactly the last B frames of its
append history, and a channel absent from the buffer has an empty
history. -/
def InvC4 (B : Nat) (bs : List (Batch Int)) (db : DataBuffer Int) : Prop :=
  (∀ k v, dictGet db.data k = some v → v.frames = takeLastN B (histFrames k bs))
  ∧ (∀ k, dictGet db.data k = none → histFrames k bs = [])

theorem invC4_initCols (B : Nat) (hB : 1 ≤ B) (done : List (Batch Int))
    (db : DataBuffer Int) (b : Batch Int) (hinv : InvC4 B done db) :
    InvC4 B done (db.initColsIfNeeded b) := by
  unfold DataBuffer.initColsIfNeeded
  split
  · rename_i hz
    have hallnil : ∀ k, histFrames k done = [] := by
      intro k
      cases hg : dictGet db.data k with
      | none => exact hinv.2 k hg
      | some v =>
          have hfr := dbLen_zero_frames hz k v hg
          have := hinv.1 k v hg
          rw [hfr] at this
          exact takeLastN_nil_of_small B _ hB this.symm
    constructor
    · intro k v hget
      dsimp only at hget
      by_cases hm : k ∈ b.map Prod.fst
      · obtain ⟨sh, hs⟩ := (resetFold_lookup b [] k).2 hm
        rw [hs] at hget
        injection hget with hget
        subst hget
        rw [hallnil k]
        simp [takeLastN]
      · rw [(resetFold_lookup b [] k).1 hm] at hget
        cases hget
    · intro k _
      exact hallnil k
  · exact hinv

theorem initCols_maxlen (db : DataBuffer Int) (b : Batch Int) :
    (db.initColsIfNeeded b).maxlen = db.maxlen := by
  unfold DataBuffer.initColsIfNeeded
  split <;> rfl

theorem invC4_step (B : Nat) (hB : 1 ≤ B) (done : List (Batch Int))
    (db db2 : DataBuffer Int) (b : Batch Int)
    (hinv : InvC4 B done db) (hmax : db.maxlen = some (B : Int))
    (hext : db.extend b = (db2, none)) :
    InvC4 B (done ++ [b]) db2 ∧ db2.maxlen = some (B : Int) := by
  have hinv1 : InvC4 B done (db.initColsIfNeeded b) := invC4_initCols B hB done db b hinv
  have hmax1 : (db.initColsIfNeeded b).maxlen = some (B : Int) := by
    rw [initCols_maxlen]
    exact hmax
  unfold DataBuffer.extend at hext
  dsimp only at hext
  cases hcg : dbConcatGo (db.initColsIfNeeded b).data b with
  | mk d2 err =>
      cases err with
      | some e =>
          rw [hcg] at hext
          dsimp only at hext
          injection hext with h1 h2
          cases h2
      | none =>
          rw [hcg] at hext
          dsimp only at hext
          rw [hmax1] at hext
          dsimp only at hext
          injection hext with h1 h2
          subst h1
          have hch := dbConcatGo_ok_lookup b (db.initColsIfNeeded b).data d2 hcg
          constructor
          · constructor
            · intro k v hget
              dsimp only at hget
              rw [dictGet_map d2 (fun a => npSlice a (B : Int) true) k] at hget
              cases hd2 : dictGet d2 k with
              | none => rw [hd2] at hget; cases hget
              | some w =>
                  rw [hd2] at hget
                  injection hget with hget
                  subst hget
                  rw [histFrames_append_one, npSlice_end_pos w B hB]
                  cases hg1 : dictGet (db.initColsIfNeeded b).data k with
                  | some old =>
                      have hw := (hch k).1 old hg1
                      rw [hd2] at hw
                      injection hw with hw
                      subst hw
                      dsimp only
                      rw [hinv1.1 k old hg1]
                      exact takeLastN_append_absorb B _ _
                  | none =>
                      have hb2 := (hch k).2 hg1
                      by_cases hm : k ∈ b.map Prod.fst
                      · obtain ⟨sh, hs⟩ := hb2.1 hm
                        rw [hd2] at hs
                        injection hs with hs
                        subst hs
                        dsimp only
                        rw [hinv1.2 k hg1]
                        simp
                      · rw [hb2.2 hm] at hd2
                        cases hd2
            · intro k hget
              dsimp only at hget
              rw [dictGet_map d2 (fun a => npSlice a (B : Int) true) k] at hget
              cases hd2 : dictGet d2 k with
              | some w => rw [hd2] at hget; cases hget
              | none =>
                  rw [histFrames_append_one]
                  cases hg1 : dictGet (db.initColsIfNeeded b).data k with
                  | some old =>
                      have hw := (hch k).1 old hg1
                      rw [hd2] at hw
                      cases hw
                  | none =>
                      have hb2 := (hch k).2 hg1
                      by_cases hm : k ∈ b.map Prod.fst
                      · obtain ⟨sh, hs⟩ := hb2.1 hm
                        rw [hd2] at hs
                        cases hs
                      · rw [hinv1.2 k hg1, batchFrames_nil_of_not_mem b hm]
                        rfl
          · rfl
  
theorem extendSeq_cons_ok (db db2 : DataBuffer Int) (b : Batch Int) (bs : List (Batch Int))
    (h : db.extend b = (db2, none)) : extendSeq db (b :: bs) = extendSeq db2 bs := by
  simp only [extendSeq]
  rw [h]

theorem extendSeq_cons_err (db db2 : DataBuffer Int) (b : Batch Int) (bs : List (Batch Int))
    (e : PyErr) (h : db.extend b = (db2, some e)) : extendSeq db (b :: bs) = (db2, some e) := by
  simp only [extendSeq]
  rw [h]

theorem extendSeq_inv (B : Nat) (hB : 1 ≤ B) :
    ∀ (bs : List (Batch Int)) (done : List (Batch Int)) (db : DataBuffer Int),
    InvC4 B done db → db.maxlen = some (B : Int) →
    (extendSeq db bs).2 = none →
    InvC4 B (done ++ bs) (extendSeq db bs).1 := by
  intro bs
  induction bs with
  | nil =>
      intro done db hinv hmax hok
      simpa [extendSeq] using hinv
  | cons b bs ih =>
      intro done db hinv hmax hok
      cases hext : db.extend b with
      | mk db2 err =>
          cases err with
          | some e =>
              rw [extendSeq_cons_err db db2 b bs e hext] at hok
              cases hok
          | none =>
              rw [extendSeq_cons_ok db db2 b bs hext] at hok ⊢
              obtain ⟨hinv2, hmax2⟩ := invC4_step B hB done db db2 b hinv hmax hext
              have := ih (done ++ [b]) db2 hinv2 hmax2 hok
              rwa [List.append_assoc, List.singleton_append] at this

/-- C4: starting from a DataBuffer constructed with bound B >= 1 (the
constructor rejects smaller bounds), after any sequence of successful
extends every stored channel's time-axis length is at most B and its
retained frames are exactly the most recent min(B, total appended) frames
of that channel's full append history. -/
theorem bounded_extend_keeps_most_recent :
    ∀ (B : Nat) (bs : List (Batch Int)),
    1 ≤ B →
    (extendSeq (⟨some (B : Int), []⟩ : DataBuffer Int) bs).2 = none →
    ∀ k v, dictGet (extendSeq (⟨some (B : Int), []⟩ : DataBuffer Int) bs).1.data k = some v →
      v.frames.length ≤ B ∧ v.frames = takeLastN B (histFrames k bs) := by
  intro B bs hB hok k v hget
  have hinv0 : InvC4 B [] (⟨some (B : Int), []⟩ : DataBuffer Int) := by
    constructor
    · intro k2 v2 hg
      cases hg
    · intro k2 _
      rfl
  have := (extendSeq_inv B hB bs [] ⟨some (B : Int), []⟩ hinv0 rfl hok).1 k v hget
  rw [List.nil_append] at this
  refine ⟨?_, this⟩
  rw [this, takeLastN_length]
  omega

/-- Witness for C4: the spec's example, a bound of 3 extended with the
samples 1..5 on channel a, retains exactly the last three samples. -/
theorem bounded_extend_keeps_most_recent_witness :
    (1 ≤ 3
      ∧ (extendSeq (⟨some ((3 : Nat) : Int), []⟩ : DataBuffer Int)
          [[("a", ⟨[], [[1], [2], [3], [4], [5]]⟩)]]).2 = none
      ∧ dictGet (extendSeq (⟨some ((3 : Nat) : Int), []⟩ : DataBuffer Int)
          [[("a", ⟨[], [[1], [2], [3], [4], [5]]⟩)]]).1.data "a"
        = some ⟨[], [[3], [4], [5]]⟩)
    ∧ ((⟨[], [[3], [4], [5]]⟩ : NpArr Int).frames.length ≤ 3
      ∧ (⟨[], [[3], [4], [5]]⟩ : NpArr Int).frames
        = takeLastN 3 (histFrames "a" [[("a", ⟨[], [[1], [2], [3], [4], [5]]⟩)]]))
    ∧ takeLastN 3 (histFrames "a" [[("a", ⟨[], [[1], [2], [3], [4], [5]]⟩)]])
      = [[3], [4], [5]] :=
  ⟨⟨by decide, by decide, by decide⟩,
    bounded_extend_keeps_most_recent 3 [[("a", ⟨[], [[1], [2], [3], [4], [5]]⟩)]]
      (by decide) (by decide) "a" ⟨[], [[3], [4], [5]]⟩ (by decide),
    by decide⟩

theorem computeDerived_det {σ α : Type} :
    ∀ (fs : List (SigFn σ α × σ)) (db : DataBuffer α)
      (r1 r2 : Except PyErr (DataBuffer α × List σ)),
    ComputeDerived fs db r1 → ComputeDerived fs db r2 → r1 = r2 := by
  intro fs db r1 r2 h1
  induction h1 generalizing r2 with
  | nil db =>
      intro h2
      cases h2
      rfl
  | gatherErr f s rest db e hg =>
      intro h2
      cases h2 with
      | gatherErr _ _ _ _ e2 hg2 =>
          rw [hg] at hg2
          injection hg2 with h
          rw [h]
      | callErr _ _ _ _ ins2 e2 s2 hg2 hc2 =>
          rw [hg] at hg2
          cases hg2
      | stepOk _ _ _ _ ins2 out2 s2 db2 ss2 hg2 hc2 hrec2 =>
          rw [hg] at hg2
          cases hg2
      | stepErr _ _ _ _ ins2 out2 s2 e2 hg2 hc2 hrec2 =>
          rw [hg] at hg2
          cases hg2
  | callErr f s rest db ins e s2 hg hc =>
      intro h2
      cases h2 with
      | gatherErr _ _ _ _ e2 hg2 =>
          rw [hg] at hg2
          cases hg2
      | callErr _ _ _ _ ins2 e2 s2b hg2 hc2 =>
          rw [hg] at hg2
          injection hg2 with hins
          subst hins
          rw [hc] at hc2
          injection hc2 with hc2a hc2b
          injection hc2a with he
          rw [he]
      | stepOk _ _ _ _ ins2 out2 s2b db2 ss2 hg2 hc2 hrec2 =>
          rw [hg] at hg2
          injection hg2 with hins
          subst hins
          rw [hc] at hc2
          injection hc2 with hc2a hc2b
          cases hc2a
      | stepErr _ _ _ _ ins2 out2 s2b e2 hg2 hc2 hrec2 =>
          rw [hg] at hg2
          injection hg2 with hins
          subst hins
          rw [hc] at hc2
          injection hc2 with hc2a hc2b
          cases hc2a
  | stepOk f s rest db ins out s2 db2 ss hg hc hrec ih =>
      intro h2
      cases h2 with
      | gatherErr _ _ _ _ e2 hg2 =>
          rw [hg] at hg2
          cases hg2
      | callErr _ _ _ _ ins2 e2 s2b hg2 hc2 =>
          rw [hg] at hg2
          injection hg2 with hins
          subst hins
          rw [hc] at hc2
          injection hc2 with hc2a hc2b
          cases hc2a
      | stepOk _ _ _ _ ins2 out2 s2b db2b ss2 hg2 hc2 hrec2 =>
          rw [hg] at hg2
          injection hg2 with hins
          subst hins
          rw [hc] at hc2
          injection hc2 with hc2a hc2b
          injection hc2a with hout
          subst hout
          subst hc2b
          have := ih _ hrec2
          injection this with h
          injection h with ha hb
          rw [ha, hb]
      | stepErr _ _ _ _ ins2 out2 s2b e2 hg2 hc2 hrec2 =>
          rw [hg] at hg2
          injection hg2 with hins
          subst hins
          rw [hc] at hc2
          injection hc2 with hc2a hc2b
          injection hc2a with hout
          subst hout
          have := ih _ hrec2
          cases this
  | stepErr f s rest db ins out s2 e hg hc hrec ih =>
      intro h2
      cases h2 with
      | gatherErr _ _ _ _ e2 hg2 =>
          rw [hg] at hg2
          cases hg2
      | callErr _ _ _ _ ins2 e2 s2b hg2 hc2 =>
          rw [hg] at hg2
          injection hg2 with hins
          subst hins
          rw [hc] at hc2
          injection hc2 with hc2a hc2b
          cases hc2a
      | stepOk _ _ _ _ ins2 out2 s2b db2b ss2 hg2 hc2 hrec2 =>
          rw [hg] at hg2
          injection hg2 with hins
          subst hins
          rw [hc] at hc2
          injection hc2 with hc2a hc2b
          injection hc2a with hout
          subst hout
          have := ih _ hrec2
          cases this
      | stepErr _ _ _ _ ins2 out2 s2b e2 hg2 hc2 hrec2 =>
          rw [hg] at hg2
          injection hg2 with hins
          subst hins
          rw [hc] at hc2
          injection hc2 with hc2a hc2b
          injection hc2a with hout
          subst hout
          exact ih _ hrec2

/-- C9: two runs of the pipeline over the same recorded batch sequence,
from the same freshly constructed function instances (equal initial
states), produce identical results: the _read/_compute_derived execution
relation is deterministic, with functions evaluated in strict declaration
order in both runs. -/
theorem pipeline_two_run_determinism {σ α : Type} :
    ∀ (fns : List (SigFn σ α)) (ss : List σ) (bs : List (DataBuffer α))
      (r1 r2 : Except PyErr (List (DataBuffer α))),
    RunReads fns ss bs r1 → RunReads fns ss bs r2 → r1 = r2 := by
  intro fns ss bs r1 r2 h1
  induction h1 generalizing r2 with
  | nil ss =>
      intro h2
      cases h2
      rfl
  | emptyOk ss b bs outs hz hrec ih =>
      intro h2
      cases h2 with
      | emptyOk _ _ _ outs2 hz2 hrec2 =>
          have := ih _ hrec2
          injection this with h
          rw [h]
      | emptyErr _ _ _ e2 hz2 hrec2 =>
          have := ih _ hrec2
          cases this
      | computeErr _ _ _ e2 hz2 hcd2 => exact absurd hz hz2
      | computeOk _ _ _ db2 ss2 outs2 hz2 hcd2 hrec2 => exact absurd hz hz2
      | computeOkErr _ _ _ db2 ss2 e2 hz2 hcd2 hrec2 => exact absurd hz hz2
  | emptyErr ss b bs e hz hrec ih =>
      intro h2
      cases h2 with
      | emptyOk _ _ _ outs2 hz2 hrec2 =>
          have := ih _ hrec2
          cases this
      | emptyErr _ _ _ e2 hz2 hrec2 =>
          exact ih _ hrec2
      | computeErr _ _ _ e2 hz2 hcd2 => exact absurd hz hz2
      | computeOk _ _ _ db2 ss2 outs2 hz2 hcd2 hrec2 => exact absurd hz hz2
      | computeOkErr _ _ _ db2 ss2 e2 hz2 hcd2 hrec2 => exact absurd hz hz2
  | computeErr ss b bs e hz hcd =>
      intro h2
      cases h2 with
      | emptyOk _ _ _ outs2 hz2 hrec2 => exact absurd hz2 hz
      | emptyErr _ _ _ e2 hz2 hrec2 => exact absurd hz2 hz
      | computeErr _ _ _ e2 hz2 hcd2 =>
          have := computeDerived_det _ _ _ _ hcd hcd2
          injection this with h
          rw [h]
      | computeOk _ _ _ db2 ss2 outs2 hz2 hcd2 hrec2 =>
          have := computeDerived_det _ _ _ _ hcd hcd2
          cases this
      | computeOkErr _ _ _ db2 ss2 e2 hz2 hcd2 hrec2 =>
          have := computeDerived_det _ _ _ _ hcd hcd2
          cases this
  | computeOk ss b bs db2 ss2 outs hz hcd hrec ih =>
      intro h2
      cases h2 with
      | emptyOk _ _ _ outs2 hz2 hrec2 => exact absurd hz2 hz
      | emptyErr _ _ _ e2 hz2 hrec2 => exact absurd hz2 hz
      | computeErr _ _ _ e2 hz2 hcd2 =>
          have := computeDerived_det _ _ _ _ hcd hcd2
          cases this
      | computeOk _ _ _ db2b ss2b outs2 hz2 hcd2 hrec2 =>
          have hdet := computeDerived_det _ _ _ _ hcd hcd2
          injection hdet with hp
          injection hp with ha hb
          subst ha
          subst hb
          have := ih _ hrec2
          injection this with h
          rw [h]
      | computeOkErr _ _ _ db2b ss2b e2 hz2 hcd2 hrec2 =>
          have hdet := computeDerived_det _ _ _ _ hcd hcd2
          injection hdet with hp
          injection hp with ha hb
          subst ha
          subst hb
          have := ih _ hrec2
          cases this
  | computeOkErr ss b bs db2 ss2 e hz hcd hrec ih =>
      intro h2
      cases h2 with
      | emptyOk _ _ _ outs2 hz2 hrec2 => exact absurd hz2 hz
      | emptyErr _ _ _ e2 hz2 hrec2 => exact absurd hz2 hz
      | computeErr _ _ _ e2 hz2 hcd2 =>
          have := computeDerived_det _ _ _ _ hcd hcd2
          cases this
      | computeOk _ _ _ db2b ss2b outs2 hz2 hcd2 hrec2 =>
          have hdet := computeDerived_det _ _ _ _ hcd hcd2
          injection hdet with hp
          injection hp with ha hb
          subst ha
          subst hb
          have := ih _ hrec2
          cases this
      | computeOkErr _ _ _ db2b ss2b e2 hz2 hcd2 hrec2 =>
          have hdet := computeDerived_det _ _ _ _ hcd hcd2
          injection hdet with hp
          injection hp with ha hb
          subst ha
          subst hb
          exact ih _ hrec2

/-- Witness for C9: a one-function pipeline (Scale by 2 reading channel x)
over the single recorded batch dbC9; both runs of the derivation produce
the buffer extended with the doubled channel y. -/
theorem pipeline_two_run_determinism_witness :
    RunReads [scaleByTwo] [()] [dbC9] (.ok [dbC9.setItem "y" ⟨[], [[2], [4], [6]]⟩])
    ∧ (Except.ok [dbC9.setItem "y" ⟨[], [[2], [4], [6]]⟩]
        : Except PyErr (List (DataBuffer Int)))
      = .ok [dbC9.setItem "y" ⟨[], [[2], [4], [6]]⟩] := by
  have hcd : ComputeDerived ([scaleByTwo].zip [()]) dbC9
      (.ok (dbC9.setItem "y" ⟨[], [[2], [4], [6]]⟩, [()])) :=
    ComputeDerived.stepOk scaleByTwo () [] dbC9 [⟨[], [[1], [2], [3]]⟩]
      ⟨[], [[2], [4], [6]]⟩ () _ [] rfl rfl (ComputeDerived.nil _)
  have hd : RunReads [scaleByTwo] [()] [dbC9]
      (.ok [dbC9.setItem "y" ⟨[], [[2], [4], [6]]⟩]) :=
    RunReads.computeOk _ _ _ _ _ _ _ (by decide) hcd (RunReads.nil _ _)
  exact ⟨hd, pipeline_two_run_determinism _ _ _ _ _ hd hd⟩

end GenkiSignals
